import Mathlib

/-!
Shallow embedding of the DZ Input Analyzer timeline core
(src/obs-studio/plugins/dz-input-analyzer/dz-input-analyzer.cpp, with the
near-duplicate copies in src/unnamed/part_000 and
src/backup manual/dz-input-analyzer_click_color_height.cpp).

Machine integers: timestamps are int64 values carried as Int; the click
delta field is a 32-bit int, so the int64-to-int store is modelled by
int32ofInt; the uint32 diagnostic counters wrap modulo 2 ^ 32; the int64
mouse-motion accumulators wrap modulo 2 ^ 64.  The per-frame window mapper
works in real arithmetic, modelled over the rationals.
-/

/-- Wrap an unbounded integer to a signed 32-bit value, as the C cast
(int) does on the target platform. -/
def int32ofInt (n : Int) : Int := (n + 2 ^ 31) % 2 ^ 32 - 2 ^ 31

/-- Wrap an unbounded integer to a signed 64-bit value, as int64 overflow
does on the target platform. -/
def int64ofInt (n : Int) : Int := (n + 2 ^ 63) % 2 ^ 64 - 2 ^ 63

/-- Wrap an integer to an unsigned 32-bit value, as the C cast (uint32_t)
does. -/
def uint32ofInt (n : Int) : Nat := (n % 2 ^ 32).toNat

/-- Wrap an integer to an unsigned 16-bit value, as the C cast (uint16_t)
does. -/
def uint16ofInt (n : Int) : Nat := (n % 2 ^ 16).toNat

/-- One press-to-release interval for a row
(struct dz_key_segment).  end_ms is negative (initialised to -1) while the
key is still held, exactly as in the source, where openness is tested by
end_ms < 0. -/
structure DzKeySegment where
  row : Nat
  start_ms : Int
  end_ms : Int
deriving DecidableEq, Repr

/-- One primary-button click marker (struct dz_click_event).  delta_ms is
a 32-bit int field in the source. -/
structure DzClickEvent where
  row : Nat
  time_ms : Int
  delta_ms : Int
deriving DecidableEq, Repr

/-- The per-source state (struct dz_source_data together with the embedded
struct dz_input_state).  Atomics are modelled by their plain values; the
graphics, window and frame-counter handles carry no timeline logic and are
omitted. -/
structure DzSourceData where
  width : Nat
  height : Nat
  bgAlpha : ℚ
  rowEnabled : List Bool
  rowKeyVkey : List Nat
  bgColor : Nat
  keyColor : List Nat
  keyDown : List Bool
  m1 : Bool
  m2 : Bool
  m3 : Bool
  lastDx : Int
  lastDy : Int
  totalDx : Int
  totalDy : Int
  mouseEvents : Nat
  keyEvents : Nat
  segments : List DzKeySegment
  clicks : List DzClickEvent
  lastKeyRow : Nat
  lastKeyDownMs : Int
  lastKeyValid : Bool
deriving DecidableEq, Repr

/-- The field initialisers of dz_source_data / dz_input_state: W, S, A, D
on rows 0..3, empty history, last_key_row = ROW_D = 3, last_key_valid
false. -/
def dzInitial : DzSourceData where
  width := 1500
  height := 520
  bgAlpha := 55 / 100
  rowEnabled := [true, true, true, true]
  rowKeyVkey := [87, 83, 65, 68]
  bgColor := 0
  keyColor := [0x5dc8f3, 0x9cff9c, 0x3f3fcf, 0xc8a00a]
  keyDown := [false, false, false, false]
  m1 := false
  m2 := false
  m3 := false
  lastDx := 0
  lastDy := 0
  totalDx := 0
  totalDy := 0
  mouseEvents := 0
  keyEvents := 0
  segments := []
  clicks := []
  lastKeyRow := 3
  lastKeyDownMs := 0
  lastKeyValid := false

/-- The test it yields row == row and it yields end_ms < 0 applied to one
segment during the reverse scans of dz_wndproc. -/
def isOpenFor (row : Nat) (s : DzKeySegment) : Bool :=
  s.row == row && decide (s.end_ms < 0)

/-- The has_open reverse scan of dz_wndproc: does any segment of this row
still have an open end.  Existence does not depend on scan direction. -/
def hasOpenSeg (segs : List DzKeySegment) (row : Nat) : Bool :=
  segs.any (isOpenFor row)

/-- Number of open segments recorded for a row. -/
def openCount (segs : List DzKeySegment) (row : Nat) : Nat :=
  segs.countP (isOpenFor row)

/-- Close the first open segment of the row found while walking the list
front to back; the source walks the deque rbegin to rend, which is this
function applied to the reversed list. -/
def closeFirstOpen (row : Nat) (t : Int) : List DzKeySegment → List DzKeySegment
  | [] => []
  | s :: rest =>
    if isOpenFor row s then { s with end_ms := t } :: rest
    else s :: closeFirstOpen row t rest

/-- The keyup branch of dz_wndproc: close the most recently created open
segment of the row (reverse-iterator scan, first hit wins). -/
def closeLatestOpen (segs : List DzKeySegment) (row : Nat) (t : Int) : List DzKeySegment :=
  (closeFirstOpen row t segs.reverse).reverse

/-- vkey_to_row: first row (0..3) whose configured virtual key matches,
mirrored over the row_key_vkey array; none corresponds to the -1 of the
source. -/
def vkeyToRow (vkeys : List Nat) (vkey : Nat) : Option Nat :=
  vkeys.findIdx? (fun v => v == vkey)

/-- Keydown handling of dz_wndproc for a mapped row: record was_down,
unconditionally mark the row down, then create an open segment and move
the last-key cursor only when the row was not already down and has no
open segment. -/
def applyKeyDownRow (d : DzSourceData) (row : Nat) (t : Int) : DzSourceData :=
  let wasDown := d.keyDown.getD row false
  let d1 := { d with keyDown := d.keyDown.set row true }
  if !wasDown && !hasOpenSeg d.segments row then
    { d1 with
      segments := d.segments ++ [{ row := row, start_ms := t, end_ms := -1 }]
      lastKeyRow := row
      lastKeyDownMs := t
      lastKeyValid := true }
  else d1

/-- Keyup handling of dz_wndproc for a mapped row: unconditionally mark
the row up, then close the latest open segment of that row if any. -/
def applyKeyUpRow (d : DzSourceData) (row : Nat) (t : Int) : DzSourceData :=
  { d with
    keyDown := d.keyDown.set row false
    segments := closeLatestOpen d.segments row t }

/-- One keyboard transition already resolved to a mapped row, including
the unconditional key_events counter increment at the end of the keyboard
branch. -/
def applyKeyEvent (d : DzSourceData) (isBreak : Bool) (row : Nat) (t : Int) : DzSourceData :=
  let d1 := if isBreak then applyKeyUpRow d row t else applyKeyDownRow d row t
  { d1 with keyEvents := (d1.keyEvents + 1) % 2 ^ 32 }

/-- The keyboard branch of dz_wndproc: map the virtual key to a row;
unmapped keys only bump the key_events counter. -/
def applyKeyboard (d : DzSourceData) (isBreak : Bool) (vkey : Nat) (t : Int) : DzSourceData :=
  match vkeyToRow d.rowKeyVkey vkey with
  | none => { d with keyEvents := (d.keyEvents + 1) % 2 ^ 32 }
  | some row => applyKeyEvent d isBreak row t

/-- The usButtonFlags bits consumed by the mouse branch. -/
structure DzMouseButtons where
  b1d : Bool
  b1u : Bool
  b2d : Bool
  b2u : Bool
  b3d : Bool
  b3u : Bool
deriving DecidableEq, Repr

/-- The click record synthesised on a primary-button-down: row and delta
from the last-key cursor when valid, else row D and delta 0; the positive
int64 difference is stored through a 32-bit int cast. -/
def dzClickOf (d : DzSourceData) (t : Int) : DzClickEvent :=
  if d.lastKeyValid then
    { row := d.lastKeyRow
      time_ms := t
      delta_ms :=
        if t - d.lastKeyDownMs > 0 then int32ofInt (t - d.lastKeyDownMs) else 0 }
  else { row := 3, time_ms := t, delta_ms := 0 }

/-- Branch of the mouse handler guarded by RI_MOUSE_BUTTON_1_DOWN: set the
m1 flag and append the click record. -/
def mb1Down (b : Bool) (t : Int) (d : DzSourceData) : DzSourceData :=
  if b then { d with m1 := true, clicks := d.clicks ++ [dzClickOf d t] } else d

/-- Branch guarded by RI_MOUSE_BUTTON_1_UP. -/
def mb1Up (b : Bool) (d : DzSourceData) : DzSourceData :=
  if b then { d with m1 := false } else d

/-- Branch guarded by RI_MOUSE_BUTTON_2_DOWN. -/
def mb2Down (b : Bool) (d : DzSourceData) : DzSourceData :=
  if b then { d with m2 := true } else d

/-- Branch guarded by RI_MOUSE_BUTTON_2_UP. -/
def mb2Up (b : Bool) (d : DzSourceData) : DzSourceData :=
  if b then { d with m2 := false } else d

/-- Branch guarded by RI_MOUSE_BUTTON_3_DOWN. -/
def mb3Down (b : Bool) (d : DzSourceData) : DzSourceData :=
  if b then { d with m3 := true } else d

/-- Branch guarded by RI_MOUSE_BUTTON_3_UP. -/
def mb3Up (b : Bool) (d : DzSourceData) : DzSourceData :=
  if b then { d with m3 := false } else d

/-- The mouse branch of dz_wndproc: motion bookkeeping, the mouse_events
counter, then the six button-flag branches in source order;
primary-button-down also appends one click record. -/
def applyMouse (d : DzSourceData) (dx dy : Int) (bf : DzMouseButtons) (t : Int) : DzSourceData :=
  let d0 := { d with
    lastDx := dx
    lastDy := dy
    totalDx := int64ofInt (d.totalDx + dx)
    totalDy := int64ofInt (d.totalDy + dy)
    mouseEvents := (d.mouseEvents + 1) % 2 ^ 32 }
  mb3Up bf.b3u (mb3Down bf.b3d (mb2Up bf.b2u (mb2Down bf.b2d (mb1Up bf.b1u
    (mb1Down bf.b1d t d0)))))

/-- A decoded raw-input payload: either a mouse report or a keyboard
report with its break flag and virtual key. -/
inductive DzRawInput where
  | mouse (dx dy : Int) (bf : DzMouseButtons)
  | keyboard (isBreak : Bool) (vkey : Nat)
deriving DecidableEq, Repr

/-- The WM_INPUT handler of dz_wndproc: the reported payload size is
rejected when it is zero, above 1 shl 16, or above the 8192-byte stack
buffer, in which case nothing is touched; otherwise the payload is
dispatched by device type. -/
def dzWmInput (d : DzSourceData) (size : Nat) (ri : DzRawInput) (t : Int) : DzSourceData :=
  if size = 0 ∨ size > 2 ^ 16 then d
  else if size > 8192 then d
  else
    match ri with
    | DzRawInput.mouse dx dy bf => applyMouse d dx dy bf t
    | DzRawInput.keyboard isBreak vkey => applyKeyboard d isBreak vkey t

/-- Effective end of a segment at cleanup time: its end when closed, the
current time when still open (end0 in dz_cleanup_history). -/
def effectiveEnd (s : DzKeySegment) (tNow : Int) : Int :=
  if s.end_ms < 0 then tNow else s.end_ms

/-- dz_cleanup_history: pop clicks from the front while older than
now - 30000, and pop segments from the front while their effective end is
older than now - 30000. -/
def dzCleanupHistory (d : DzSourceData) (tNow : Int) : DzSourceData :=
  let keepAfter := tNow - 30000
  { d with
    clicks := d.clicks.dropWhile (fun c => decide (c.time_ms < keepAfter))
    segments := d.segments.dropWhile (fun s => decide (effectiveEnd s tNow < keepAfter)) }

/-- The flat settings values consumed by dz_source_update, already fetched
from the obs_data handle (integers arrive as int64). -/
structure DzSettings where
  width : Int
  height : Int
  bgAlpha : ℚ
  bgColor : Int
  colorW : Int
  colorS : Int
  colorA : Int
  colorD : Int
  rowWKey : Int
  rowSKey : Int
  rowAKey : Int
  rowDKey : Int
  rowWEnabled : Bool
  rowSEnabled : Bool
  rowAEnabled : Bool
  rowDEnabled : Bool
deriving DecidableEq, Repr

/-- dz_obter_vkey: take the stored integer through an int cast, fall back
to the default when it is zero, and truncate to uint16. -/
def dzObterVkey (valor0 : Int) (padrao : Nat) : Nat :=
  let valor := int32ofInt valor0
  if valor ≠ 0 then uint16ofInt valor else padrao

/-- dz_source_update: refresh the configuration fields from the settings
(width and height only when positive, alpha clamped to the unit interval),
then reset the four per-row down flags; the timeline history and the
last-key cursor are not touched. -/
def dzSourceUpdate (d : DzSourceData) (s : DzSettings) : DzSourceData :=
  let w := int32ofInt s.width
  let h := int32ofInt s.height
  let d1 := if w > 0 then { d with width := uint32ofInt w } else d
  let d2 := if h > 0 then { d1 with height := uint32ofInt h } else d1
  let d3 := { d2 with
    bgAlpha := max 0 (min 1 s.bgAlpha)
    bgColor := uint32ofInt s.bgColor
    keyColor :=
      [uint32ofInt s.colorW, uint32ofInt s.colorS, uint32ofInt s.colorA, uint32ofInt s.colorD]
    rowKeyVkey :=
      [dzObterVkey s.rowWKey 87, dzObterVkey s.rowSKey 83,
       dzObterVkey s.rowAKey 65, dzObterVkey s.rowDKey 68]
    rowEnabled := [s.rowWEnabled, s.rowSEnabled, s.rowAEnabled, s.rowDEnabled] }
  { d3 with keyDown := (((d3.keyDown.set 0 false).set 1 false).set 2 false).set 3 false }

/-- The operations that mutate the shared state: a mapped key transition,
a mouse report, the per-frame history cleanup, and a settings update. -/
inductive DzEvent where
  | key (isBreak : Bool) (row : Nat) (t : Int)
  | mouse (dx dy : Int) (bf : DzMouseButtons) (t : Int)
  | cleanup (t : Int)
  | update (s : DzSettings)
deriving DecidableEq, Repr

/-- Apply one operation. -/
def applyEvent (d : DzSourceData) : DzEvent → DzSourceData
  | DzEvent.key isBreak row t => applyKeyEvent d isBreak row t
  | DzEvent.mouse dx dy bf t => applyMouse d dx dy bf t
  | DzEvent.cleanup t => dzCleanupHistory d t
  | DzEvent.update s => dzSourceUpdate d s

/-- Apply a list of operations in order. -/
def applyEvents (d : DzSourceData) (es : List DzEvent) : DzSourceData :=
  es.foldl applyEvent d

/-- States the program can be in: produced from the initial state by some
sequence of operations. -/
def Reachable (d : DzSourceData) : Prop :=
  ∃ es : List DzEvent, applyEvents dzInitial es = d

/-- The xOf lambda of dz_source_render: affine map of a timestamp onto the
timeline span, with the degenerate guard returning the left edge; the
render pass instantiates t0 = now - 5000 and t1 = now.  Real arithmetic is
modelled over the rationals. -/
def dzXOf (t0 t1 timelineX0 timelineW t : ℚ) : ℚ :=
  let denom := t1 - t0
  if denom ≤ 0 then timelineX0
  else timelineX0 + ((t - t0) / denom) * timelineW

/-- Clamp to the unit interval. -/
def clamp01 (u : ℚ) : ℚ := max 0 (min 1 u)

/-- Modelled from the spec: the window-mapper formula as the specification
words it, with the ratio passed through clamp01 before scaling (the source
lambda xOf has no clamp).  Used only to compare against dzXOf. -/
def dzXOfSpec (t0 t1 timelineX0 timelineW t : ℚ) : ℚ :=
  if t1 - t0 ≤ 0 then timelineX0
  else timelineX0 + clamp01 ((t - t0) / (t1 - t0)) * timelineW

/-- Segment-creation condition of the press branch in the main plugin copy
(dz-input-analyzer.cpp): was_down is read before the unconditional flag
store, and creation additionally requires the open-segment scan to fail. -/
def segCondMain (d : DzSourceData) (row : Nat) : Bool :=
  !d.keyDown.getD row false && !hasOpenSeg d.segments row

/-- Segment-creation condition in src/unnamed/part_000, textually the same
logic as the main copy. -/
def segCondPart000 (d : DzSourceData) (row : Nat) : Bool :=
  !d.keyDown.getD row false && !hasOpenSeg d.segments row

/-- Segment-creation condition of the backup copy
(dz-input-analyzer_click_color_height.cpp): only the open-segment scan
guards creation there (its already flag is read after the store and is not
part of the condition). -/
def segCondBackup (d : DzSourceData) (row : Nat) : Bool :=
  !hasOpenSeg d.segments row

/-- Concrete state with a valid last-key cursor on row A (index 2) pressed
at t = 1000, as in the specification example. -/
def dzC1State : DzSourceData :=
  { dzInitial with lastKeyValid := true, lastKeyRow := 2, lastKeyDownMs := 1000 }

/-- Button flags of a bare primary-button-down report. -/
def dzB1Only : DzMouseButtons :=
  { b1d := true, b1u := false, b2d := false, b2u := false, b3d := false, b3u := false }

/-- Concrete state holding an old open segment in front of an old closed
segment, reached by press row 0 at 0, press row 1 at 1, release row 1
at 2. -/
def dzC4State : DzSourceData :=
  { dzInitial with segments :=
      [{ row := 0, start_ms := 0, end_ms := -1 }, { row := 1, start_ms := 1, end_ms := 2 }] }

/-- Concrete state with all four down flags set and one open segment. -/
def dzC10State : DzSourceData :=
  { dzInitial with
    keyDown := [true, true, true, true]
    segments := [{ row := 0, start_ms := 0, end_ms := -1 }] }

/-- Concrete settings payload used against dzSourceUpdate. -/
def dzC10Settings : DzSettings where
  width := 800
  height := 400
  bgAlpha := 1 / 4
  bgColor := 10
  colorW := 1
  colorS := 2
  colorA := 3
  colorD := 4
  rowWKey := 69
  rowSKey := 0
  rowAKey := 0
  rowDKey := 0
  rowWEnabled := true
  rowSEnabled := false
  rowAEnabled := true
  rowDEnabled := true

/-! Helper lemmas about the list operations used by the handlers. -/

theorem getD_set_false_self : ∀ (l : List Bool) (i : Nat), (l.set i false).getD i false = false
  | [], _ => rfl
  | _ :: _, 0 => rfl
  | _ :: as, i + 1 => by
    simpa using getD_set_false_self as i

theorem getD_set_of_ne (l : List Bool) (i j : Nat) (v : Bool) (h : i ≠ j) :
    (l.set i v).getD j false = l.getD j false := by
  simp [List.getD_eq_getElem?_getD, List.getElem?_set_ne h]

theorem set_false_of_getD_false :
    ∀ (l : List Bool) (i : Nat), l.getD i false = false → l.set i false = l
  | [], _, _ => rfl
  | a :: as, 0, h => by
    simp only [List.getD_cons_zero] at h
    simp [h]
  | a :: as, i + 1, h => by
    simp only [List.getD_cons_succ] at h
    simp [set_false_of_getD_false as i h]

theorem hasOpenSeg_eq_false_iff (l : List DzKeySegment) (row : Nat) :
    hasOpenSeg l row = false ↔ openCount l row = 0 := by
  simp [hasOpenSeg, openCount, List.any_eq_false, List.countP_eq_zero]

theorem closeFirstOpen_of_no_open (row : Nat) (t : Int) :
    ∀ l : List DzKeySegment, hasOpenSeg l row = false → closeFirstOpen row t l = l
  | [], _ => rfl
  | s :: rest, h => by
    simp only [hasOpenSeg, List.any_cons, Bool.or_eq_false_iff] at h
    simp [closeFirstOpen, h.1, closeFirstOpen_of_no_open row t rest
      (by simp [hasOpenSeg, h.2])]

theorem closeFirstOpen_append_left (row : Nat) (t : Int) (l₂ : List DzKeySegment) :
    ∀ l₁ : List DzKeySegment, hasOpenSeg l₁ row = false →
      closeFirstOpen row t (l₁ ++ l₂) = l₁ ++ closeFirstOpen row t l₂
  | [], _ => rfl
  | s :: rest, h => by
    simp only [hasOpenSeg, List.any_cons, Bool.or_eq_false_iff] at h
    simp [closeFirstOpen, h.1, closeFirstOpen_append_left row t l₂ rest
      (by simp [hasOpenSeg, h.2])]

theorem closeLatestOpen_of_no_open (l : List DzKeySegment) (row : Nat) (t : Int)
    (h : hasOpenSeg l row = false) : closeLatestOpen l row t = l := by
  have hrev : hasOpenSeg l.reverse row = false := by
    simpa [hasOpenSeg] using h
  simp [closeLatestOpen, closeFirstOpen_of_no_open row t l.reverse hrev]

theorem closeLatestOpen_spec (l₁ l₂ : List DzKeySegment) (s : DzKeySegment) (row : Nat)
    (t : Int) (hs : isOpenFor row s = true) (h₂ : hasOpenSeg l₂ row = false) :
    closeLatestOpen (l₁ ++ s :: l₂) row t = l₁ ++ { s with end_ms := t } :: l₂ := by
  have hrev : hasOpenSeg l₂.reverse row = false := by
    simpa [hasOpenSeg] using h₂
  simp only [closeLatestOpen, List.reverse_append, List.reverse_cons]
  rw [List.append_assoc, closeFirstOpen_append_left row t _ l₂.reverse hrev]
  simp [closeFirstOpen, hs]

theorem countP_closeFirstOpen_le (row : Nat) (t : Int) (r : Nat) :
    ∀ l : List DzKeySegment,
      (closeFirstOpen row t l).countP (isOpenFor r) ≤ l.countP (isOpenFor r)
  | [] => Nat.le_refl _
  | s :: rest => by
    by_cases hs : isOpenFor row s = true
    · simp only [closeFirstOpen, hs, if_pos]
      rw [List.countP_cons, List.countP_cons]
      have hmono : (if isOpenFor r { s with end_ms := t } then 1 else 0) ≤
          (if isOpenFor r s then 1 else 0) := by
        have hopen : decide (s.end_ms < 0) = true := by
          simp only [isOpenFor, Bool.and_eq_true] at hs
          exact hs.2
        by_cases hr : (s.row == r) = true
        · by_cases ht : t < 0 <;> simp [isOpenFor, hr, hopen, ht]
        · simp [isOpenFor, hr]
      omega
    · simp only [closeFirstOpen, hs, if_neg, Bool.not_eq_true]
      rw [List.countP_cons, List.countP_cons]
      have := countP_closeFirstOpen_le row t r rest
      omega

theorem any_closeFirstOpen_ne (row : Nat) (t : Int) (r : Nat) (hne : r ≠ row) :
    ∀ l : List DzKeySegment,
      (closeFirstOpen row t l).any (isOpenFor r) = l.any (isOpenFor r)
  | [] => rfl
  | s :: rest => by
    by_cases hs : isOpenFor row s = true
    · have hrow : s.row = row := by
        simp only [isOpenFor, Bool.and_eq_true, beq_iff_eq] at hs
        exact hs.1
      have hsr : (s.row == r) = false := by
        rw [hrow]
        exact beq_eq_false_iff_ne.mpr (fun h => hne h.symm)
      simp only [closeFirstOpen, if_pos hs, List.any_cons]
      have h1 : isOpenFor r { s with end_ms := t } = false := by
        simp [isOpenFor, hsr]
      have h2 : isOpenFor r s = false := by
        simp [isOpenFor, hsr]
      rw [h1, h2]
    · simp only [closeFirstOpen, if_neg hs, List.any_cons,
        any_closeFirstOpen_ne row t r hne rest]

theorem openCount_closeLatestOpen_le (l : List DzKeySegment) (row : Nat) (t : Int) (r : Nat) :
    openCount (closeLatestOpen l row t) r ≤ openCount l r := by
  simp only [closeLatestOpen, openCount]
  rw [List.countP_reverse]
  have h1 := countP_closeFirstOpen_le row t r l.reverse
  rwa [List.countP_reverse] at h1

theorem hasOpenSeg_closeLatestOpen_ne (l : List DzKeySegment) (row : Nat) (t : Int)
    (r : Nat) (hne : r ≠ row) :
    hasOpenSeg (closeLatestOpen l row t) r = hasOpenSeg l r := by
  simp only [closeLatestOpen, hasOpenSeg]
  rw [List.any_reverse, any_closeFirstOpen_ne row t r hne, List.any_reverse]

/-! The state invariant: at most one open segment per row, and a row whose
down flag is set always has an open segment. -/

/-- Invariant carried through every operation: each row has at most one
open segment, and a set down flag implies an open segment for that row. -/
def DzInv (d : DzSourceData) : Prop :=
  (∀ r : Nat, openCount d.segments r ≤ 1) ∧
  (∀ r : Nat, d.keyDown.getD r false = true → hasOpenSeg d.segments r = true)

theorem dzInv_of_fields (a b : DzSourceData) (hseg : a.segments = b.segments)
    (hkd : a.keyDown = b.keyDown) (h : DzInv b) : DzInv a := by
  unfold DzInv at h ⊢
  rw [hseg, hkd]
  exact h

theorem mb1Down_segments (b : Bool) (t : Int) (d : DzSourceData) :
    (mb1Down b t d).segments = d.segments := by
  cases b <;> rfl

theorem mb1Down_keyDown (b : Bool) (t : Int) (d : DzSourceData) :
    (mb1Down b t d).keyDown = d.keyDown := by
  cases b <;> rfl

theorem mb1Down_clicks (b : Bool) (t : Int) (d : DzSourceData) :
    (mb1Down b t d).clicks = if b then d.clicks ++ [dzClickOf d t] else d.clicks := by
  cases b <;> rfl

theorem mb1Down_cursor (b : Bool) (t : Int) (d : DzSourceData) :
    (mb1Down b t d).lastKeyRow = d.lastKeyRow ∧
    (mb1Down b t d).lastKeyDownMs = d.lastKeyDownMs ∧
    (mb1Down b t d).lastKeyValid = d.lastKeyValid := by
  cases b <;> exact ⟨rfl, rfl, rfl⟩

set_option maxHeartbeats 1600000 in
theorem mbRest_fields (b1u b2d b2u b3d b3u : Bool) (d : DzSourceData) :
    (mb3Up b3u (mb3Down b3d (mb2Up b2u (mb2Down b2d (mb1Up b1u d))))).segments = d.segments ∧
    (mb3Up b3u (mb3Down b3d (mb2Up b2u (mb2Down b2d (mb1Up b1u d))))).keyDown = d.keyDown ∧
    (mb3Up b3u (mb3Down b3d (mb2Up b2u (mb2Down b2d (mb1Up b1u d))))).clicks = d.clicks ∧
    (mb3Up b3u (mb3Down b3d (mb2Up b2u (mb2Down b2d (mb1Up b1u d))))).lastKeyRow =
      d.lastKeyRow ∧
    (mb3Up b3u (mb3Down b3d (mb2Up b2u (mb2Down b2d (mb1Up b1u d))))).lastKeyDownMs =
      d.lastKeyDownMs ∧
    (mb3Up b3u (mb3Down b3d (mb2Up b2u (mb2Down b2d (mb1Up b1u d))))).lastKeyValid =
      d.lastKeyValid := by
  cases b1u <;> cases b2d <;> cases b2u <;> cases b3d <;> cases b3u <;>
    exact ⟨rfl, rfl, rfl, rfl, rfl, rfl⟩

theorem applyMouse_segments (d : DzSourceData) (dx dy : Int) (bf : DzMouseButtons) (t : Int) :
    (applyMouse d dx dy bf t).segments = d.segments := by
  rw [applyMouse, (mbRest_fields bf.b1u bf.b2d bf.b2u bf.b3d bf.b3u _).1, mb1Down_segments]

theorem applyMouse_keyDown (d : DzSourceData) (dx dy : Int) (bf : DzMouseButtons) (t : Int) :
    (applyMouse d dx dy bf t).keyDown = d.keyDown := by
  rw [applyMouse, (mbRest_fields bf.b1u bf.b2d bf.b2u bf.b3d bf.b3u _).2.1, mb1Down_keyDown]

theorem dzClickOf_congr (a b : DzSourceData) (t : Int) (hv : a.lastKeyValid = b.lastKeyValid)
    (hr : a.lastKeyRow = b.lastKeyRow) (hm : a.lastKeyDownMs = b.lastKeyDownMs) :
    dzClickOf a t = dzClickOf b t := by
  unfold dzClickOf
  rw [hv, hr, hm]

theorem applyMouse_clicks (d : DzSourceData) (dx dy : Int) (bf : DzMouseButtons) (t : Int) :
    (applyMouse d dx dy bf t).clicks =
      if bf.b1d then d.clicks ++ [dzClickOf d t] else d.clicks := by
  rw [applyMouse, (mbRest_fields bf.b1u bf.b2d bf.b2u bf.b3d bf.b3u _).2.2.1, mb1Down_clicks]
  have hclick : dzClickOf { d with
      lastDx := dx
      lastDy := dy
      totalDx := int64ofInt (d.totalDx + dx)
      totalDy := int64ofInt (d.totalDy + dy)
      mouseEvents := (d.mouseEvents + 1) % 2 ^ 32 } t = dzClickOf d t :=
    dzClickOf_congr _ _ _ rfl rfl rfl
  rw [hclick]

theorem applyMouse_cursor (d : DzSourceData) (dx dy : Int) (bf : DzMouseButtons) (t : Int) :
    (applyMouse d dx dy bf t).lastKeyRow = d.lastKeyRow ∧
    (applyMouse d dx dy bf t).lastKeyDownMs = d.lastKeyDownMs ∧
    (applyMouse d dx dy bf t).lastKeyValid = d.lastKeyValid := by
  obtain ⟨-, -, -, h4, h5, h6⟩ := mbRest_fields bf.b1u bf.b2d bf.b2u bf.b3d bf.b3u
    (mb1Down bf.b1d t { d with
      lastDx := dx
      lastDy := dy
      totalDx := int64ofInt (d.totalDx + dx)
      totalDy := int64ofInt (d.totalDy + dy)
      mouseEvents := (d.mouseEvents + 1) % 2 ^ 32 })
  obtain ⟨g1, g2, g3⟩ := mb1Down_cursor bf.b1d t { d with
      lastDx := dx
      lastDy := dy
      totalDx := int64ofInt (d.totalDx + dx)
      totalDy := int64ofInt (d.totalDy + dy)
      mouseEvents := (d.mouseEvents + 1) % 2 ^ 32 }
  refine ⟨?_, ?_, ?_⟩
  · rw [applyMouse, h4, g1]
  · rw [applyMouse, h5, g2]
  · rw [applyMouse, h6, g3]

theorem dzSourceUpdate_fields (d : DzSourceData) (s : DzSettings) :
    (dzSourceUpdate d s).segments = d.segments ∧
    (dzSourceUpdate d s).clicks = d.clicks ∧
    (dzSourceUpdate d s).lastKeyRow = d.lastKeyRow ∧
    (dzSourceUpdate d s).lastKeyDownMs = d.lastKeyDownMs ∧
    (dzSourceUpdate d s).lastKeyValid = d.lastKeyValid ∧
    (dzSourceUpdate d s).keyDown =
      (((d.keyDown.set 0 false).set 1 false).set 2 false).set 3 false := by
  by_cases hw : int32ofInt s.width > 0 <;> by_cases hh : int32ofInt s.height > 0 <;>
    simp [dzSourceUpdate, hw, hh]

theorem inv_applyKeyDownRow (d : DzSourceData) (row : Nat) (t : Int) (h : DzInv d) :
    DzInv (applyKeyDownRow d row t) := by
  obtain ⟨h1, h2⟩ := h
  simp only [applyKeyDownRow]
  split
  next hc =>
    have hopen : hasOpenSeg d.segments row = false := by
      simp only [Bool.and_eq_true, Bool.not_eq_true'] at hc
      exact hc.2
    constructor
    · intro r
      show List.countP (isOpenFor r)
        (d.segments ++ [{ row := row, start_ms := t, end_ms := -1 }]) ≤ 1
      rw [List.countP_append]
      by_cases hr : r = row
      · subst hr
        have hz : List.countP (isOpenFor r) d.segments = 0 :=
          (hasOpenSeg_eq_false_iff _ _).mp hopen
        rw [hz]
        simp [isOpenFor]
      · have hne : (row == r) = false := beq_eq_false_iff_ne.mpr (fun hh => hr hh.symm)
        have hone : List.countP (isOpenFor r)
            [{ row := row, start_ms := t, end_ms := -1 }] = 0 := by
          simp [isOpenFor, hne]
        rw [hone]
        have := h1 r
        rw [openCount] at this
        omega
    · intro r hr
      show (d.segments ++ [({ row := row, start_ms := t, end_ms := -1 } : DzKeySegment)]).any
        (isOpenFor r) = true
      by_cases hrr : r = row
      · subst hrr
        simp [List.any_append, isOpenFor]
      · have hr2 : (d.keyDown.set row true).getD r false = true := hr
        rw [getD_set_of_ne _ _ _ _ (fun hh => hrr hh.symm)] at hr2
        have ho := h2 r hr2
        rw [hasOpenSeg] at ho
        simp [List.any_append, ho]
  next hc =>
    have hopen : hasOpenSeg d.segments row = true := by
      rcases hw : d.keyDown.getD row false with _ | _
      · rcases ho : hasOpenSeg d.segments row with _ | _
        · exact absurd (by rw [hw, ho]; rfl) hc
        · rfl
      · exact h2 row hw
    constructor
    · intro r
      exact h1 r
    · intro r hr
      show hasOpenSeg d.segments r = true
      by_cases hrr : r = row
      · subst hrr
        exact hopen
      · have hr2 : (d.keyDown.set row true).getD r false = true := hr
        rw [getD_set_of_ne _ _ _ _ (fun hh => hrr hh.symm)] at hr2
        exact h2 r hr2

theorem inv_applyKeyUpRow (d : DzSourceData) (row : Nat) (t : Int) (h : DzInv d) :
    DzInv (applyKeyUpRow d row t) := by
  obtain ⟨h1, h2⟩ := h
  constructor
  · intro r
    exact le_trans (openCount_closeLatestOpen_le d.segments row t r) (h1 r)
  · intro r hr
    by_cases hrr : r = row
    · subst hrr
      rw [show (applyKeyUpRow d r t).keyDown = d.keyDown.set r false from rfl,
        getD_set_false_self] at hr
      cases hr
    · rw [show (applyKeyUpRow d row t).keyDown = d.keyDown.set row false from rfl,
        getD_set_of_ne _ _ _ _ (fun hh => hrr hh.symm)] at hr
      rw [show (applyKeyUpRow d row t).segments = closeLatestOpen d.segments row t from rfl,
        hasOpenSeg_closeLatestOpen_ne _ _ _ _ hrr]
      exact h2 r hr

theorem inv_applyKeyEvent (d : DzSourceData) (isBreak : Bool) (row : Nat) (t : Int)
    (h : DzInv d) : DzInv (applyKeyEvent d isBreak row t) := by
  cases isBreak
  · exact dzInv_of_fields _ _ rfl rfl (inv_applyKeyDownRow d row t h)
  · exact dzInv_of_fields _ _ rfl rfl (inv_applyKeyUpRow d row t h)

theorem inv_applyMouse (d : DzSourceData) (dx dy : Int) (bf : DzMouseButtons) (t : Int)
    (h : DzInv d) : DzInv (applyMouse d dx dy bf t) :=
  dzInv_of_fields _ _ (applyMouse_segments d dx dy bf t) (applyMouse_keyDown d dx dy bf t) h

theorem inv_dzCleanupHistory (d : DzSourceData) (t : Int) (h : DzInv d) :
    DzInv (dzCleanupHistory d t) := by
  obtain ⟨h1, h2⟩ := h
  have hproj : (dzCleanupHistory d t).segments =
      d.segments.dropWhile (fun s => decide (effectiveEnd s t < t - 30000)) := rfl
  constructor
  · intro r
    rw [hproj]
    have hsplit := List.takeWhile_append_dropWhile
      (fun s => decide (effectiveEnd s t < t - 30000)) d.segments
    have := h1 r
    rw [openCount, ← hsplit, List.countP_append] at this
    rw [openCount]
    omega
  · intro r hr
    have hr2 : d.keyDown.getD r false = true := hr
    have ho := h2 r hr2
    rw [hproj]
    rw [hasOpenSeg, List.any_eq_true] at ho ⊢
    obtain ⟨s, hmem, hs⟩ := ho
    refine ⟨s, ?_, hs⟩
    have hsopen : s.end_ms < 0 := by
      have := hs
      simp only [isOpenFor, Bool.and_eq_true, decide_eq_true_eq] at this
      exact this.2
    have hps : decide (effectiveEnd s t < t - 30000) = false := by
      simp only [effectiveEnd, if_pos hsopen, decide_eq_false_iff_not]
      omega
    have hsplit := List.takeWhile_append_dropWhile
      (fun s => decide (effectiveEnd s t < t - 30000)) d.segments
    rw [← hsplit] at hmem
    rcases List.mem_append.mp hmem with hmem2 | hmem2
    · have := List.mem_takeWhile_imp hmem2
      rw [hps] at this
      cases this
    · exact hmem2

theorem inv_dzSourceUpdate (d : DzSourceData) (s : DzSettings) (h : DzInv d) :
    DzInv (dzSourceUpdate d s) := by
  obtain ⟨h1, h2⟩ := h
  obtain ⟨hseg, -, -, -, -, hkd⟩ := dzSourceUpdate_fields d s
  constructor
  · intro r
    rw [hseg]
    exact h1 r
  · intro r hr
    rw [hkd] at hr
    rw [hseg]
    rcases r with _ | _ | _ | _ | r
    · rw [getD_set_of_ne _ _ _ _ (by omega), getD_set_of_ne _ _ _ _ (by omega),
        getD_set_of_ne _ _ _ _ (by omega), getD_set_false_self] at hr
      cases hr
    · rw [getD_set_of_ne _ _ _ _ (by omega), getD_set_of_ne _ _ _ _ (by omega),
        getD_set_false_self] at hr
      cases hr
    · rw [getD_set_of_ne _ _ _ _ (by omega), getD_set_false_self] at hr
      cases hr
    · rw [getD_set_false_self] at hr
      cases hr
    · rw [getD_set_of_ne _ _ _ _ (by omega), getD_set_of_ne _ _ _ _ (by omega),
        getD_set_of_ne _ _ _ _ (by omega), getD_set_of_ne _ _ _ _ (by omega)] at hr
      exact h2 _ hr

theorem inv_applyEvent (d : DzSourceData) (e : DzEvent) (h : DzInv d) :
    DzInv (applyEvent d e) := by
  cases e with
  | key isBreak row t => exact inv_applyKeyEvent d isBreak row t h
  | mouse dx dy bf t => exact inv_applyMouse d dx dy bf t h
  | cleanup t => exact inv_dzCleanupHistory d t h
  | update s => exact inv_dzSourceUpdate d s h

theorem inv_applyEvents : ∀ (es : List DzEvent) (d : DzSourceData),
    DzInv d → DzInv (applyEvents d es)
  | [], _, h => h
  | e :: es, d, h => inv_applyEvents es (applyEvent d e) (inv_applyEvent d e h)

theorem inv_dzInitial : DzInv dzInitial := by
  constructor
  · intro r
    simp [openCount, dzInitial]
  · intro r hr
    rcases r with _ | _ | _ | _ | r <;> simp [dzInitial] at hr

theorem inv_reachable (d : DzSourceData) (h : Reachable d) : DzInv d := by
  obtain ⟨es, he⟩ := h
  rw [← he]
  exact inv_applyEvents es dzInitial inv_dzInitial

/-! Helper lemmas about the handler branches themselves. -/

theorem int32ofInt_of_small (n : Int) (h0 : 0 ≤ n) (h1 : n < 2 ^ 31) : int32ofInt n = n := by
  have e31 : (2 : Int) ^ 31 = 2147483648 := by norm_num
  have e32 : (2 : Int) ^ 32 = 4294967296 := by norm_num
  unfold int32ofInt
  rw [e31, e32] at *
  rw [Int.emod_eq_of_lt (by omega) (by omega)]
  omega

theorem applyKeyDownRow_suppressed (d : DzSourceData) (row : Nat) (t : Int)
    (h : hasOpenSeg d.segments row = true) :
    applyKeyDownRow d row t = { d with keyDown := d.keyDown.set row true } := by
  simp only [applyKeyDownRow]
  split
  next hcc =>
    rw [h] at hcc
    simp at hcc
  next => rfl

theorem applyKeyDownRow_novel (d : DzSourceData) (row : Nat) (t : Int)
    (hw : d.keyDown.getD row false = false) (ho : hasOpenSeg d.segments row = false) :
    applyKeyDownRow d row t = { d with
      keyDown := d.keyDown.set row true
      segments := d.segments ++ [{ row := row, start_ms := t, end_ms := -1 }]
      lastKeyRow := row
      lastKeyDownMs := t
      lastKeyValid := true } := by
  simp only [applyKeyDownRow]
  split
  next => rfl
  next hcc =>
    rw [hw, ho] at hcc
    simp at hcc

theorem applyKeyEvent_press_eq (d : DzSourceData) (row : Nat) (t : Int) :
    applyKeyEvent d false row t =
      { applyKeyDownRow d row t with
        keyEvents := ((applyKeyDownRow d row t).keyEvents + 1) % 2 ^ 32 } := rfl

theorem press_fold_suppressed (row : Nat) :
    ∀ (ts : List Int) (d : DzSourceData), hasOpenSeg d.segments row = true →
      (ts.foldl (fun a ti => applyKeyEvent a false row ti) d).segments = d.segments ∧
      (ts.foldl (fun a ti => applyKeyEvent a false row ti) d).lastKeyRow = d.lastKeyRow ∧
      (ts.foldl (fun a ti => applyKeyEvent a false row ti) d).lastKeyDownMs =
        d.lastKeyDownMs ∧
      (ts.foldl (fun a ti => applyKeyEvent a false row ti) d).lastKeyValid =
        d.lastKeyValid ∧
      (ts.foldl (fun a ti => applyKeyEvent a false row ti) d).clicks = d.clicks
  | [], d, h => ⟨rfl, rfl, rfl, rfl, rfl⟩
  | ti :: ts, d, h => by
    have hs1 : applyKeyEvent d false row ti = { d with
        keyDown := d.keyDown.set row true
        keyEvents := (d.keyEvents + 1) % 2 ^ 32 } := by
      rw [applyKeyEvent_press_eq, applyKeyDownRow_suppressed d row ti h]
    have hopen1 : hasOpenSeg (applyKeyEvent d false row ti).segments row = true := by
      rw [hs1]
      exact h
    obtain ⟨i1, i2, i3, i4, i5⟩ :=
      press_fold_suppressed row ts (applyKeyEvent d false row ti) hopen1
    simp only [List.foldl_cons]
    exact ⟨by rw [i1, hs1], by rw [i2, hs1], by rw [i3, hs1], by rw [i4, hs1],
      by rw [i5, hs1]⟩

theorem clicks_dropWhile_sorted (tNow : Int) :
    ∀ l : List DzClickEvent, l.Pairwise (fun a b => a.time_ms ≤ b.time_ms) →
      ∀ c ∈ l.dropWhile (fun c => decide (c.time_ms < tNow - 30000)),
        ¬(c.time_ms < tNow - 30000)
  | [], _, c, hc => by simp at hc
  | x :: xs, hp, c, hc => by
    rw [List.pairwise_cons] at hp
    obtain ⟨hx, hxs⟩ := hp
    by_cases hq : x.time_ms < tNow - 30000
    · rw [List.dropWhile_cons_of_pos (by simpa using hq)] at hc
      exact clicks_dropWhile_sorted tNow xs hxs c hc
    · rw [List.dropWhile_cons_of_neg (by simpa using hq)] at hc
      rcases List.mem_cons.mp hc with rfl | hc2
      · exact hq
      · have hle := hx c hc2
        omega

/-! Claim theorems. -/

/-- C7: a raw-input payload whose reported size is zero or exceeds the
8192-byte buffer is rejected by the WM_INPUT handler with no state
mutation and no surfaced error (the handler total-returns the unchanged
state). -/
theorem malformed_payload_rejected (d : DzSourceData) (size : Nat) (ri : DzRawInput)
    (t : Int) (h : size = 0 ∨ size > 8192) : dzWmInput d size ri t = d := by
  rcases h with h | h
  · simp only [dzWmInput]
    rw [if_pos (Or.inl h)]
  · by_cases h2 : size > 2 ^ 16
    · simp only [dzWmInput]
      rw [if_pos (Or.inr h2)]
    · have e16 : (2 : Nat) ^ 16 = 65536 := by norm_num
      rw [e16] at h2
      have h0 : ¬(size = 0 ∨ size > 2 ^ 16) := by
        rw [e16]
        omega
      simp only [dzWmInput]
      rw [if_neg h0, if_pos h]

/-- Witness for C7: a zero-size keyboard payload and a 9000-byte mouse
payload both leave the initial state untouched. -/
theorem malformed_payload_rejected_witness :
    dzWmInput dzInitial 0 (DzRawInput.keyboard false 87) 5 = dzInitial ∧
    dzWmInput dzInitial 9000 (DzRawInput.mouse 1 2 dzB1Only) 5 = dzInitial :=
  ⟨malformed_payload_rejected dzInitial 0 (DzRawInput.keyboard false 87) 5 (Or.inl rfl),
   malformed_payload_rejected dzInitial 9000 (DzRawInput.mouse 1 2 dzB1Only) 5
     (Or.inr (by omega))⟩

/-- C5: starting from the initial empty state, after any sequence of
operations (press, release, click, cleanup, settings update) each of the
4 rows has at most one open segment. -/
theorem at_most_one_open_per_row (es : List DzEvent) (row : Nat) (hrow : row < 4) :
    openCount (applyEvents dzInitial es).segments row ≤ 1 :=
  (inv_applyEvents es dzInitial inv_dzInitial).1 row

/-- Witness for C5: a press, a repeated press, a release, a click and a
cleanup on row 0. -/
theorem at_most_one_open_per_row_witness :
    (0 : Nat) < 4 ∧
    openCount (applyEvents dzInitial
      [DzEvent.key false 0 100, DzEvent.key false 0 105, DzEvent.key true 0 250,
       DzEvent.mouse 0 0 dzB1Only 500, DzEvent.cleanup 600]).segments 0 ≤ 1 :=
  ⟨by decide, at_most_one_open_per_row
    [DzEvent.key false 0 100, DzEvent.key false 0 105, DzEvent.key true 0 250,
     DzEvent.mouse 0 0 dzB1Only 500, DzEvent.cleanup 600] 0 (by decide)⟩

/-- C8: on every reachable state, the segment-creation condition of the
backup copy (no open segment) agrees with the condition of the main copy
and of the part_000 copy (not already down and no open segment): a set
down flag always comes with an open segment, so the extra conjunct never
changes the outcome. -/
theorem press_condition_copies_agree (d : DzSourceData) (hR : Reachable d) (row : Nat) :
    segCondMain d row = segCondBackup d row ∧
    segCondMain d row = segCondPart000 d row := by
  refine ⟨?_, rfl⟩
  have h2 := (inv_reachable d hR).2
  cases ho : hasOpenSeg d.segments row with
  | false =>
    have hw : d.keyDown.getD row false = false := by
      cases hw2 : d.keyDown.getD row false with
      | false => rfl
      | true =>
        have := h2 row hw2
        rw [this] at ho
        cases ho
    simp only [segCondMain, segCondBackup]
    rw [ho, hw]
    rfl
  | true =>
    simp only [segCondMain, segCondBackup, ho, Bool.not_true, Bool.and_false]

/-- Witness for C8: the two conditions agree on the initial state (which
is reachable by the empty operation sequence) for row 0. -/
theorem press_condition_copies_agree_witness :
    segCondMain dzInitial 0 = segCondBackup dzInitial 0 ∧
    segCondMain dzInitial 0 = segCondPart000 dzInitial 0 :=
  press_condition_copies_agree dzInitial ⟨[], rfl⟩ 0

/-- C10: a settings update resets the four per-row down flags to not-down
and leaves the segment history, the click history and the last-key cursor
untouched. -/
theorem update_resets_flags_only (d : DzSourceData) (s : DzSettings) :
    (∀ row : Nat, row < 4 → (dzSourceUpdate d s).keyDown.getD row false = false) ∧
    (dzSourceUpdate d s).segments = d.segments ∧
    (dzSourceUpdate d s).clicks = d.clicks ∧
    (dzSourceUpdate d s).lastKeyRow = d.lastKeyRow ∧
    (dzSourceUpdate d s).lastKeyDownMs = d.lastKeyDownMs ∧
    (dzSourceUpdate d s).lastKeyValid = d.lastKeyValid := by
  obtain ⟨h1, h2, h3, h4, h5, h6⟩ := dzSourceUpdate_fields d s
  refine ⟨?_, h1, h2, h3, h4, h5⟩
  intro row hrow
  rw [h6]
  rcases row with _ | _ | _ | _ | row
  · rw [getD_set_of_ne _ _ _ _ (by omega), getD_set_of_ne _ _ _ _ (by omega),
      getD_set_of_ne _ _ _ _ (by omega), getD_set_false_self]
  · rw [getD_set_of_ne _ _ _ _ (by omega), getD_set_of_ne _ _ _ _ (by omega),
      getD_set_false_self]
  · rw [getD_set_of_ne _ _ _ _ (by omega), getD_set_false_self]
  · rw [getD_set_false_self]
  · exact absurd hrow (by omega)

/-- Witness for C10: updating a state with all flags down and one open
segment clears the row 0 flag and keeps the open segment. -/
theorem update_resets_flags_only_witness :
    (0 : Nat) < 4 ∧
    (dzSourceUpdate dzC10State dzC10Settings).keyDown.getD 0 false = false ∧
    (dzSourceUpdate dzC10State dzC10Settings).segments = dzC10State.segments :=
  ⟨by decide, (update_resets_flags_only dzC10State dzC10Settings).1 0 (by decide),
   (update_resets_flags_only dzC10State dzC10Settings).2.1⟩

/-- C2: starting from a state where the row is not marked down and has no
open segment, a run of N consecutive presses (N = 1 plus the length of the
tail list) appends exactly one open segment; the suppressed later presses
leave the segment sequence, the last-key cursor and the clicks unchanged,
so the cursor carries the first press only. -/
theorem repeat_press_single_segment (d : DzSourceData) (row : Nat) (t : Int)
    (ts : List Int) (hw : d.keyDown.getD row false = false)
    (ho : hasOpenSeg d.segments row = false) :
    ((t :: ts).foldl (fun a ti => applyKeyEvent a false row ti) d).segments =
      d.segments ++ [{ row := row, start_ms := t, end_ms := -1 }] ∧
    ((t :: ts).foldl (fun a ti => applyKeyEvent a false row ti) d).lastKeyRow = row ∧
    ((t :: ts).foldl (fun a ti => applyKeyEvent a false row ti) d).lastKeyDownMs = t ∧
    ((t :: ts).foldl (fun a ti => applyKeyEvent a false row ti) d).lastKeyValid = true ∧
    ((t :: ts).foldl (fun a ti => applyKeyEvent a false row ti) d).clicks = d.clicks := by
  have hs1 : applyKeyEvent d false row t = { d with
      keyDown := d.keyDown.set row true
      segments := d.segments ++ [{ row := row, start_ms := t, end_ms := -1 }]
      lastKeyRow := row
      lastKeyDownMs := t
      lastKeyValid := true
      keyEvents := (d.keyEvents + 1) % 2 ^ 32 } := by
    rw [applyKeyEvent_press_eq, applyKeyDownRow_novel d row t hw ho]
  have hopen1 : hasOpenSeg (applyKeyEvent d false row t).segments row = true := by
    rw [hs1]
    show (d.segments ++ [({ row := row, start_ms := t, end_ms := -1 } : DzKeySegment)]).any
      (isOpenFor row) = true
    simp [List.any_append, isOpenFor]
  obtain ⟨i1, i2, i3, i4, i5⟩ :=
    press_fold_suppressed row ts (applyKeyEvent d false row t) hopen1
  simp only [List.foldl_cons]
  exact ⟨by rw [i1, hs1], by rw [i2, hs1], by rw [i3, hs1], by rw [i4, hs1],
    by rw [i5, hs1]⟩

/-- Witness for C2: three presses on row 2 at times 1000, 1005, 1010 from
the initial state leave exactly the single open segment started at 1000. -/
theorem repeat_press_single_segment_witness :
    (([1000, 1005, 1010] : List Int).foldl
      (fun a ti => applyKeyEvent a false 2 ti) dzInitial).segments =
      [{ row := 2, start_ms := 1000, end_ms := -1 }] ∧
    (([1000, 1005, 1010] : List Int).foldl
      (fun a ti => applyKeyEvent a false 2 ti) dzInitial).lastKeyDownMs = 1000 := by
  have h := repeat_press_single_segment dzInitial 2 1000 [1005, 1010] (by decide) (by decide)
  exact ⟨h.1, h.2.2.1⟩

/-- C3 counterexample: a release on row 0 from the initial (reachable)
state, where row 0 has no open segment, still changes the state, because
the keyboard branch unconditionally increments the key_events counter (and
rewrites the down flag): the claimed unconditional no-op does not hold of
the whole state. -/
theorem release_noop_counterexample :
    applyKeyEvent dzInitial true 0 5 ≠ dzInitial := by
  intro h
  have h2 : (applyKeyEvent dzInitial true 0 5).keyEvents = dzInitial.keyEvents :=
    congrArg DzSourceData.keyEvents h
  exact absurd h2 (by decide)

/-- C3 (amended): on a reachable state, a release for a mapped row with no
open segment leaves everything unchanged except the key-event counter; and
when the row has an open segment, the most recently created open segment
of that row (no later open one exists) gets its end set to the release
time, with every other segment, the clicks and the cursor untouched (the
down flag is cleared and the counter bumped). -/
theorem release_closes_latest_open (d : DzSourceData) (row : Nat) (t : Int)
    (hR : Reachable d) :
    (hasOpenSeg d.segments row = false →
      applyKeyEvent d true row t = { d with keyEvents := (d.keyEvents + 1) % 2 ^ 32 }) ∧
    (∀ (l₁ l₂ : List DzKeySegment) (s : DzKeySegment),
      d.segments = l₁ ++ s :: l₂ → isOpenFor row s = true → hasOpenSeg l₂ row = false →
      applyKeyEvent d true row t = { d with
        keyDown := d.keyDown.set row false
        segments := l₁ ++ { s with end_ms := t } :: l₂
        keyEvents := (d.keyEvents + 1) % 2 ^ 32 }) := by
  have hup : applyKeyEvent d true row t = { d with
      keyDown := d.keyDown.set row false
      segments := closeLatestOpen d.segments row t
      keyEvents := (d.keyEvents + 1) % 2 ^ 32 } := rfl
  constructor
  · intro ho
    rw [hup, closeLatestOpen_of_no_open d.segments row t ho]
    have hflag : d.keyDown.getD row false = false := by
      cases hw : d.keyDown.getD row false with
      | false => rfl
      | true =>
        have := (inv_reachable d hR).2 row hw
        rw [this] at ho
        cases ho
    rw [set_false_of_getD_false d.keyDown row hflag]
  · intro l₁ l₂ s hseg hs h₂
    rw [hup, hseg, closeLatestOpen_spec l₁ l₂ s row t hs h₂]

/-- Witness for C3: on the initial state a release of row 0 at time 5 only
bumps the key-event counter. -/
theorem release_closes_latest_open_witness :
    applyKeyEvent dzInitial true 0 5 =
      { dzInitial with keyEvents := (dzInitial.keyEvents + 1) % 2 ^ 32 } :=
  (release_closes_latest_open dzInitial 0 5 ⟨[], rfl⟩).1 rfl

/-- C1 counterexample: after a press on row 2 at time 0 (a reachable
state), a primary-button-down at time 2147483648 stores the delta through
the 32-bit int cast and records -2147483648, not
max(0, click_time - last_key_down_time) = 2147483648. -/
theorem click_delta_cast_counterexample :
    (applyMouse (applyEvents dzInitial [DzEvent.key false 2 0]) 0 0 dzB1Only
        2147483648).clicks =
      [{ row := 2, time_ms := 2147483648, delta_ms := -2147483648 }] ∧
    ¬((-2147483648 : Int) =
      max 0 (2147483648 -
        (applyEvents dzInitial [DzEvent.key false 2 0]).lastKeyDownMs)) := by
  constructor
  · decide
  · decide

/-- C1 (amended): a primary-button-down appends exactly one click event;
when the cursor is valid it carries the cursor row and, provided the
difference stays below 2 ^ 31 (so the int cast is lossless), delta =
max(0, click_time - last_key_down_time); when no press was ever accepted
it carries fallback row 3 (row D) and delta 0. -/
theorem click_event_appended (d : DzSourceData) (dx dy : Int) (bf : DzMouseButtons)
    (t : Int) (hb : bf.b1d = true) (hsmall : t - d.lastKeyDownMs < 2 ^ 31) :
    (applyMouse d dx dy bf t).clicks =
      d.clicks ++ [if d.lastKeyValid then
          { row := d.lastKeyRow, time_ms := t, delta_ms := max 0 (t - d.lastKeyDownMs) }
        else { row := 3, time_ms := t, delta_ms := 0 }] := by
  rw [applyMouse_clicks, hb, if_pos rfl]
  have hck : dzClickOf d t =
      if d.lastKeyValid then
        { row := d.lastKeyRow, time_ms := t, delta_ms := max 0 (t - d.lastKeyDownMs) }
      else { row := 3, time_ms := t, delta_ms := 0 } := by
    unfold dzClickOf
    cases hv : d.lastKeyValid with
    | false => rfl
    | true =>
      simp only [if_pos rfl]
      by_cases hpos : t - d.lastKeyDownMs > 0
      · rw [if_pos hpos, int32ofInt_of_small _ (by omega) hsmall,
          (max_eq_right (by omega) : max 0 (t - d.lastKeyDownMs) = t - d.lastKeyDownMs)]
      · rw [if_neg hpos,
          (max_eq_left (by omega) : max (0 : Int) (t - d.lastKeyDownMs) = 0)]
  rw [hck]

/-- Witness for C1: the specification example, a press on row A (index 2)
at t = 1000 followed by a click at t = 1350, yields the click event with
row 2 and delta 350. -/
theorem click_event_appended_witness :
    (applyMouse dzC1State 0 0 dzB1Only 1350).clicks =
      [{ row := 2, time_ms := 1350, delta_ms := 350 }] := by
  rw [click_event_appended dzC1State 0 0 dzB1Only 1350 rfl (by decide)]
  decide

/-- C4 counterexample: at cleanup time 40000 (horizon 10000) on the
reachable history of dzC4State, the closed segment with end 2 is older
than the horizon yet is retained, because eviction only pops from the
front and the still-open first segment blocks it: the claim that every
closed segment older than the horizon is evicted fails. -/
theorem cleanup_front_blocking_counterexample :
    (dzCleanupHistory dzC4State 40000).segments = dzC4State.segments ∧
    ({ row := 1, start_ms := 1, end_ms := 2 } : DzKeySegment) ∈ dzC4State.segments ∧
    (2 : Int) < 40000 - 30000 ∧ ¬((2 : Int) < 0) := by
  refine ⟨by decide, by decide, by decide, by decide⟩

/-- C4 (amended): one cleanup pass at time now removes exactly a front
prefix from each sequence (order of the rest preserved): open segments
are always retained; every evicted segment was closed with its end older
than now - 30000; every evicted click was older than now - 30000; and when
the click timestamps are monotone (as produced by the monotone clock), no
retained click is older than the horizon.  A closed segment older than the
horizon is guaranteed gone only when no open or newer segment sits in
front of it. -/
theorem cleanup_eviction_properties (d : DzSourceData) (tNow : Int) :
    ((dzCleanupHistory d tNow).segments.IsSuffix d.segments ∧
     (dzCleanupHistory d tNow).clicks.IsSuffix d.clicks) ∧
    (∀ s ∈ d.segments, s.end_ms < 0 → s ∈ (dzCleanupHistory d tNow).segments) ∧
    (∀ s ∈ d.segments, s ∉ (dzCleanupHistory d tNow).segments →
      0 ≤ s.end_ms ∧ s.end_ms < tNow - 30000) ∧
    (∀ c ∈ d.clicks, c ∉ (dzCleanupHistory d tNow).clicks →
      c.time_ms < tNow - 30000) ∧
    (d.clicks.Pairwise (fun a b => a.time_ms ≤ b.time_ms) →
      ∀ c ∈ (dzCleanupHistory d tNow).clicks, ¬(c.time_ms < tNow - 30000)) := by
  have hseg : (dzCleanupHistory d tNow).segments =
      d.segments.dropWhile (fun s => decide (effectiveEnd s tNow < tNow - 30000)) := rfl
  have hclk : (dzCleanupHistory d tNow).clicks =
      d.clicks.dropWhile (fun c => decide (c.time_ms < tNow - 30000)) := rfl
  have hsegsplit := List.takeWhile_append_dropWhile
    (fun s => decide (effectiveEnd s tNow < tNow - 30000)) d.segments
  have hclksplit := List.takeWhile_append_dropWhile
    (fun c => decide (c.time_ms < tNow - 30000)) d.clicks
  refine ⟨⟨?_, ?_⟩, ?_, ?_, ?_, ?_⟩
  · rw [hseg]
    exact List.dropWhile_suffix _
  · rw [hclk]
    exact List.dropWhile_suffix _
  · intro s hs hso
    rw [hseg]
    rw [← hsegsplit] at hs
    rcases List.mem_append.mp hs with hmem | hmem
    · have hp := List.mem_takeWhile_imp hmem
      simp only [decide_eq_true_eq] at hp
      rw [effectiveEnd, if_pos hso] at hp
      omega
    · exact hmem
  · intro s hs hnot
    rw [hseg] at hnot
    rw [← hsegsplit] at hs
    rcases List.mem_append.mp hs with hmem | hmem
    · have hp := List.mem_takeWhile_imp hmem
      simp only [decide_eq_true_eq] at hp
      by_cases hso : s.end_ms < 0
      · rw [effectiveEnd, if_pos hso] at hp
        omega
      · rw [effectiveEnd, if_neg hso] at hp
        exact ⟨by omega, hp⟩
    · exact absurd hmem hnot
  · intro c hc hnot
    rw [hclk] at hnot
    rw [← hclksplit] at hc
    rcases List.mem_append.mp hc with hmem | hmem
    · have hp := List.mem_takeWhile_imp hmem
      simpa using hp
    · exact absurd hmem hnot
  · intro hsorted c hc
    rw [hclk] at hc
    exact clicks_dropWhile_sorted tNow d.clicks hsorted c hc

/-- Witness for C4: on dzC4State at time 40000 the open segment survives
the pass (applied through the open-retention clause). -/
theorem cleanup_eviction_properties_witness :
    ({ row := 0, start_ms := 0, end_ms := -1 } : DzKeySegment) ∈
      (dzCleanupHistory dzC4State 40000).segments :=
  (cleanup_eviction_properties dzC4State 40000).2.1
    { row := 0, start_ms := 0, end_ms := -1 } (by decide) (by decide)

/-- C6 counterexample: with now = 10000 (window 5000..10000), left edge 70
and timeline width 1410, the render lambda maps t = 4999 to
70 - 141/500, outside the timeline, while the claimed clamp01 formula
would pin it to the left edge 70. -/
theorem window_map_clamp_counterexample :
    dzXOf 5000 10000 70 1410 4999 ≠ dzXOfSpec 5000 10000 70 1410 4999 := by
  have h1 : dzXOf 5000 10000 70 1410 4999 = 70 - 141 / 500 := by
    rw [dzXOf]
    norm_num
  have h2 : dzXOfSpec 5000 10000 70 1410 4999 = 70 := by
    rw [dzXOfSpec]
    rw [if_neg (by norm_num)]
    rw [clamp01]
    norm_num
  rw [h1, h2]
  norm_num

/-- C6 (amended): the window mapper is the unclamped affine map
x(t) = X0 + ((t - t0) / (t1 - t0)) * timelineWidth (no clamp01 in the
lambda; out-of-window timestamps map outside and callers clamp); the left
edge t0 maps to X0, the right edge t1 maps to X0 + timelineWidth, a
non-positive window duration maps every timestamp to X0, and inside the
window the map agrees with the clamped specification formula. -/
theorem window_map_properties (t0 t1 X0 w t : ℚ) :
    (t1 - t0 ≤ 0 → dzXOf t0 t1 X0 w t = X0) ∧
    (t0 < t1 → dzXOf t0 t1 X0 w t = X0 + ((t - t0) / (t1 - t0)) * w) ∧
    (t0 < t1 → dzXOf t0 t1 X0 w t0 = X0) ∧
    (t0 < t1 → dzXOf t0 t1 X0 w t1 = X0 + w) ∧
    (t0 < t1 → t0 ≤ t → t ≤ t1 → dzXOf t0 t1 X0 w t = dzXOfSpec t0 t1 X0 w t) := by
  have hdz : ∀ u : ℚ, t0 < t1 → dzXOf t0 t1 X0 w u = X0 + ((u - t0) / (t1 - t0)) * w := by
    intro u h
    simp only [dzXOf]
    rw [if_neg (by linarith : ¬(t1 - t0 ≤ 0))]
  refine ⟨?_, hdz t, ?_, ?_, ?_⟩
  · intro h
    simp only [dzXOf]
    rw [if_pos h]
  · intro h
    rw [hdz t0 h]
    simp
  · intro h
    rw [hdz t1 h, div_self (by linarith : t1 - t0 ≠ 0)]
    ring
  · intro h h0 h1
    rw [hdz t h]
    simp only [dzXOfSpec]
    rw [if_neg (by linarith : ¬(t1 - t0 ≤ 0))]
    have hu0 : 0 ≤ (t - t0) / (t1 - t0) := div_nonneg (by linarith) (by linarith)
    have hu1 : (t - t0) / (t1 - t0) ≤ 1 := by
      rw [div_le_one (by linarith)]
      linarith
    rw [clamp01, min_eq_right hu1, max_eq_right hu0]

/-- Witness for C6: the specification boundary example with now = 10000,
window 5000 ms, left edge 70 and width 1410: t = 5000 maps to the left
edge and t = 10000 maps to the right edge. -/
theorem window_map_properties_witness :
    dzXOf 5000 10000 70 1410 5000 = 70 ∧ dzXOf 5000 10000 70 1410 10000 = 70 + 1410 :=
  ⟨(window_map_properties 5000 10000 70 1410 5000).2.2.1 (by norm_num),
   (window_map_properties 5000 10000 70 1410 10000).2.2.2.1 (by norm_num)⟩
